import Mathlib

/-!
Verification development for the foldermanager-GTK repository.

The scan-and-aggregate engine (src/scan.rs), the out-of-process dispatcher
(src/ipc.rs) and the worker-mode process contract are shallowly embedded
here.  Rust functions keep their source names.  Machine integers are
modelled as `Nat` with explicit clamping where the code clamps; Rust `f64`
values produced by `str::parse::<f64>` are modelled exactly as sign-scaled
decimal fixed-point numbers (`num / 10 ^ den10`), together with the special
values nan / inf / neg-inf; this idealises IEEE rounding (a documented
precision limit of the program) but is exact on every decimal literal whose
scaled value fits the 53-bit significand.  The filesystem is modelled as a
tree value, and the `walkdir` collaborator by its documented traversal
semantics.  Character classification (whitespace, upper/lower casing) uses
Lean's ASCII-level primitives, matching the code on all ASCII input.
-/

/- ===================== String utilities ===================== -/

/-- Model of Rust `str::trim` at the character-list level. -/
def trimL (cs : List Char) : List Char :=
  ((cs.dropWhile Char.isWhitespace).reverse.dropWhile Char.isWhitespace).reverse

/-- Model of Rust `str::to_uppercase` (ASCII level). -/
def toUpperL (cs : List Char) : List Char :=
  cs.map Char.toUpper

/-- Model of Rust `str::to_lowercase` (ASCII level). -/
def lowerL (cs : List Char) : List Char :=
  cs.map Char.toLower

/-- Accumulator-passing splitter behind `splitWs`. -/
def splitWsAux : List Char → List Char → List (List Char)
  | cur, [] => if cur.isEmpty then [] else [cur.reverse]
  | cur, c :: cs =>
    if c.isWhitespace then
      if cur.isEmpty then splitWsAux [] cs else cur.reverse :: splitWsAux [] cs
    else splitWsAux (c :: cur) cs

/-- Model of Rust `str::split_whitespace`: splits at whitespace runs and
never produces empty tokens. -/
def splitWs (cs : List Char) : List (List Char) :=
  splitWsAux [] cs

/-- Split a character list at every dot, keeping empty pieces, exactly like
Rust `str::split('.')` collected into a vector. -/
def splitDots : List Char → List (List Char)
  | [] => [[]]
  | c :: cs =>
    if c = '.' then [] :: splitDots cs
    else
      match splitDots cs with
      | [] => [[c]]
      | t :: ts => (c :: t) :: ts

/-- Accumulator-passing helper behind `baseName`. -/
def baseNameAux : List Char → List Char → List Char
  | cur, [] => cur.reverse
  | cur, c :: cs => if c = '/' then baseNameAux [] cs else baseNameAux (c :: cur) cs

/-- Final path component, the model of Rust `Path::file_name` on the
slash-separated paths produced by the directory walk. -/
def baseName (cs : List Char) : List Char :=
  baseNameAux [] cs

/- ===================== Rust f64 model ===================== -/

/-- Result of Rust `str::parse::<f64>`, modelled exactly: a finite value is
the signed decimal `num / 10 ^ den10`; the special classes keep their IEEE
behaviour under the saturating `as u64` cast. -/
inductive RustFloat where
  | finite (num : Int) (den10 : Nat)
  | nan
  | inf
  | neginf
deriving DecidableEq

/-- Numeric value of a digit run (most significant first). -/
def digitsToNat (ds : List Char) : Nat :=
  ds.foldl (fun a c => a * 10 + (c.toNat - '0'.toNat)) 0

/-- Parse the exponent that follows the `e`/`E` marker of a float literal:
an optional sign and a non-empty digit run. -/
def parseExpPart (cs : List Char) : Option Int :=
  match cs with
  | '+' :: ds => if ds ≠ [] ∧ ds.all Char.isDigit then some ((digitsToNat ds : Nat) : Int) else none
  | '-' :: ds => if ds ≠ [] ∧ ds.all Char.isDigit then some (-((digitsToNat ds : Nat) : Int)) else none
  | ds => if ds ≠ [] ∧ ds.all Char.isDigit then some ((digitsToNat ds : Nat) : Int) else none

/-- Parse the unsigned body of a decimal float literal into
(significand digits, fraction length, exponent), following the grammar of
Rust `f64::from_str`: `digits`, `digits '.' digits?`, `'.' digits`, each with
an optional exponent part. -/
def parseDecCore (cs : List Char) : Option (Nat × Nat × Int) :=
  let intPart := cs.takeWhile Char.isDigit
  let rest1 := cs.dropWhile Char.isDigit
  match rest1 with
  | [] => if intPart = [] then none else some (digitsToNat intPart, 0, 0)
  | '.' :: rest2 =>
    let frac := rest2.takeWhile Char.isDigit
    let rest3 := rest2.dropWhile Char.isDigit
    if intPart = [] ∧ frac = [] then none
    else
      match rest3 with
      | [] => some (digitsToNat (intPart ++ frac), frac.length, 0)
      | 'E' :: ecs => (parseExpPart ecs).map fun e => (digitsToNat (intPart ++ frac), frac.length, e)
      | 'e' :: ecs => (parseExpPart ecs).map fun e => (digitsToNat (intPart ++ frac), frac.length, e)
      | _ => none
  | 'E' :: ecs =>
    if intPart = [] then none
    else (parseExpPart ecs).map fun e => (digitsToNat intPart, 0, e)
  | 'e' :: ecs =>
    if intPart = [] then none
    else (parseExpPart ecs).map fun e => (digitsToNat intPart, 0, e)
  | _ => none

/-- Fold sign and decimal exponent into the fixed-point representation. -/
def applyExp (mant : Nat) (fracLen : Nat) (e : Int) (neg : Bool) : RustFloat :=
  let sign : Int := if neg then -1 else 1
  if 0 ≤ e then .finite (sign * (mant : Int) * (10 : Int) ^ e.toNat) fracLen
  else .finite (sign * (mant : Int)) (fracLen + (-e).toNat)

/-- Model of Rust `str::parse::<f64>` on a whitespace-free token (the
callers feed it upper-cased tokens, so the special spellings are matched in
upper case). -/
def parseRustFloat (cs : List Char) : Option RustFloat :=
  let signBody : Bool × List Char :=
    match cs with
    | '+' :: rest => (false, rest)
    | '-' :: rest => (true, rest)
    | rest => (false, rest)
  let neg := signBody.1
  let body := signBody.2
  if body = ['I', 'N', 'F'] ∨ body = ['I', 'N', 'F', 'I', 'N', 'I', 'T', 'Y'] then
    some (if neg then .neginf else .inf)
  else if body = ['N', 'A', 'N'] then some .nan
  else (parseDecCore body).map fun t => applyExp t.1 t.2.1 t.2.2 neg

/-- Largest u64 value. -/
def U64_MAX : Nat := 2 ^ 64 - 1

/-- Multiplication of a parsed float by a natural constant, the model of
`nilai * pengali as f64` for the power-of-two multipliers of the code
(exact in f64 up to the documented precision limit). -/
def f64MulNat : RustFloat → Nat → RustFloat
  | .finite n k, m => .finite (n * (m : Int)) k
  | .nan, _ => .nan
  | .inf, _ => .inf
  | .neginf, _ => .neginf

/-- Model of the Rust saturating `as u64` cast on floats: NaN and negative
values go to 0, values beyond the range go to `U64_MAX`, finite values are
truncated toward zero. -/
def f64CastToU64 : RustFloat → Nat
  | .nan => 0
  | .neginf => 0
  | .inf => U64_MAX
  | .finite n k => if n < 0 then 0 else min (n.toNat / 10 ^ k) U64_MAX

/- ===================== SizeParser (src/scan.rs) ===================== -/

/-- Konstanta untuk konversi ukuran byte (scan.rs line 24). -/
def BYTES_PER_KB : Nat := 1024

/-- Konstanta untuk konversi ukuran byte (scan.rs line 25). -/
def BYTES_PER_MB : Nat := BYTES_PER_KB * 1024

/-- Konstanta untuk konversi ukuran byte (scan.rs line 26). -/
def BYTES_PER_GB : Nat := BYTES_PER_MB * 1024

/-- Embedding of `parse_angka_tanpa_unit` (scan.rs lines 62-67): a bare
number is taken as megabytes. -/
def parse_angka_tanpa_unit (angka_string : List Char) : Option Nat :=
  (parseRustFloat angka_string).map fun nilai => f64CastToU64 (f64MulNat nilai BYTES_PER_MB)

/-- Embedding of `convert_dengan_unit` (scan.rs lines 78-88). -/
def convert_dengan_unit (nilai : RustFloat) (unit : List Char) : Option Nat :=
  (if unit = ['B'] then some 1
   else if unit = ['K', 'B'] then some BYTES_PER_KB
   else if unit = ['M', 'B'] then some BYTES_PER_MB
   else if unit = ['G', 'B'] then some BYTES_PER_GB
   else none).map fun pengali => f64CastToU64 (f64MulNat nilai pengali)

/-- Embedding of `parse_angka_dengan_unit` (scan.rs lines 70-75). -/
def parse_angka_dengan_unit (angka_string : List Char) (unit : List Char) : Option Nat :=
  (parseRustFloat angka_string).bind fun nilai => convert_dengan_unit nilai unit

/-- Embedding of `parse_human_input_to_bytes` (scan.rs lines 45-59): trim,
upper-case, split on whitespace, then dispatch on the token count. -/
def parse_human_input_to_bytes (input_string : String) : Option Nat :=
  let input_bersih := toUpperL (trimL input_string.data)
  if input_bersih.isEmpty then none
  else
    match splitWs input_bersih with
    | [a] => parse_angka_tanpa_unit a
    | [a, u] => parse_angka_dengan_unit a u
    | _ => none

/-- Embedding of `parse_filter_option` (scan.rs lines 30-41). -/
def parse_filter_option (opsi_filter : String) (teks_custom : Option String) : Nat :=
  if opsi_filter = "100 MB" then 100 * BYTES_PER_MB
  else if opsi_filter = "500 MB" then 500 * BYTES_PER_MB
  else if opsi_filter = "1 GB" then BYTES_PER_GB
  else if opsi_filter = "5 GB" then 5 * BYTES_PER_GB
  else if opsi_filter = "Custom" then ((teks_custom.bind parse_human_input_to_bytes).getD 0)
  else 0

/-- Token list the free-text parser works on: the whitespace-split pieces of
the trimmed, upper-cased input. -/
def tokensOf (s : String) : List (List Char) :=
  splitWs (toUpperL (trimL s.data))

/- ===================== ScanEngine data model (src/scan.rs) ===================== -/

/-- Result of a successful `fs::metadata` call, reduced to the one field the
code reads. -/
structure Metadata where
  len : Nat
deriving DecidableEq

/-- One regular file seen by the traversal: its full path (as produced by
`to_string_lossy`) and the outcome of its `fs::metadata` lookup at scan
time (`none` models a lookup failure). -/
structure TraversedFile where
  path : String
  meta : Option Metadata
deriving DecidableEq

/-- Embedding of `FileEntry` (scan.rs lines 10-13). -/
structure FileEntry where
  path : String
  size : Nat
deriving DecidableEq

/-- Embedding of `FolderStats` (scan.rs lines 16-21). -/
structure FolderStats where
  total_size : Nat
  total_files : Nat
  extension_count : List (String × Nat)
  filtered_files : List FileEntry
deriving DecidableEq

/-- Embedding of `ambil_ukuran_file` (scan.rs lines 141-145): metadata size
with 0 substituted on lookup failure. -/
def ambil_ukuran_file (path_file : TraversedFile) : Nat :=
  ((path_file.meta).map Metadata.len).getD 0

/-- Embedding of `hitung_total_ukuran_file` (scan.rs lines 133-138); the
rayon parallel sum is modelled by the list sum, which claim C6 proves
partition-independent. -/
def hitung_total_ukuran_file (daftar_path : List TraversedFile) : Nat :=
  (daftar_path.map ambil_ukuran_file).sum

/-- Model of Rust `Path::extension` on a file name: splitting at dots, the
extension is the piece after the last dot, except that a name without a dot,
or a name whose only dot is leading (a hidden file), has none. -/
def rustExtension (name : List Char) : Option (List Char) :=
  match splitDots name with
  | [] => none
  | [_] => none
  | first :: rest => if first = [] ∧ rest.length = 1 then none else some (rest.getLastD [])

/-- Embedding of `ekstrak_ekstensi_file` (scan.rs lines 160-166): lower-cased
extension of the path's final component, `"unknown"` when there is none. -/
def ekstrak_ekstensi_file (path_file : TraversedFile) : String :=
  match rustExtension (baseName path_file.path.data) with
  | some e => ⟨lowerL e⟩
  | none => "unknown"

/-- Semantics of `*map.entry(k).or_insert(0) += d` on the association-list
model of `HashMap<String, usize>`: add `d` to the entry of `k`, inserting it
when absent. -/
def bumpKey : List (String × Nat) → String → Nat → List (String × Nat)
  | [], k, d => [(k, d)]
  | (k0, v) :: rest, k, d =>
    if k0 = k then (k0, v + d) :: rest else (k0, v) :: bumpKey rest k d

/-- Embedding of `tambahkan_ekstensi_ke_map` (scan.rs lines 169-175), the
fold step of the extension histogram. -/
def tambahkan_ekstensi_ke_map (map_akumulasi : List (String × Nat)) (ekstensi : String) :
    List (String × Nat) :=
  bumpKey map_akumulasi ekstensi 1

/-- Embedding of `gabungkan_map_ekstensi` (scan.rs lines 178-186), the
reduce step: every entry of the second map is added into the first. -/
def gabungkan_map_ekstensi (map_pertama map_kedua : List (String × Nat)) :
    List (String × Nat) :=
  map_kedua.foldl (fun acc p => bumpKey acc p.1 p.2) map_pertama

/-- Insertion step of the model of the stable descending `sort_by` of
scan.rs line 193. -/
def insertDesc (x : String × Nat) : List (String × Nat) → List (String × Nat)
  | [] => [x]
  | y :: ys => if y.2 < x.2 then x :: y :: ys else y :: insertDesc x ys

/-- Sort an association list by count, descending, the model of
`sort_by(|a, b| b.1.cmp(&a.1))` on count pairs. -/
def sortDesc (l : List (String × Nat)) : List (String × Nat) :=
  l.foldr insertDesc []

/-- Embedding of `konversi_dan_urutkan_map_ekstensi` (scan.rs lines
189-195). -/
def konversi_dan_urutkan_map_ekstensi (map_ekstensi : List (String × Nat)) :
    List (String × Nat) :=
  sortDesc map_ekstensi

/-- Embedding of `hitung_ekstensi_file` (scan.rs lines 149-157).  The rayon
fold+reduce pipeline is instantiated here with the single-partition
schedule; claim C6 proves the result independent of the partitioning. -/
def hitung_ekstensi_file (daftar_path : List TraversedFile) : List (String × Nat) :=
  konversi_dan_urutkan_map_ekstensi
    ((daftar_path.map ekstrak_ekstensi_file).foldl tambahkan_ekstensi_ke_map [])

/-- Embedding of `ambil_path_dan_ukuran` (scan.rs lines 211-215). -/
def ambil_path_dan_ukuran (path_file : TraversedFile) : Option (String × Nat) :=
  (path_file.meta).map fun md => (path_file.path, md.len)

/-- Embedding of `konversi_ke_file_entry` (scan.rs lines 218-223). -/
def konversi_ke_file_entry (p : String × Nat) : FileEntry :=
  ⟨p.1, p.2⟩

/-- Embedding of `filter_file_berdasarkan_ukuran` (scan.rs lines 198-208). -/
def filter_file_berdasarkan_ukuran (daftar_path : List TraversedFile) (ukuran_minimum : Nat) :
    List FileEntry :=
  (((daftar_path.filterMap ambil_path_dan_ukuran).filter
      fun p => ukuran_minimum ≤ p.2).map konversi_ke_file_entry)

/-- Body of `scan_folder` (scan.rs lines 92-120) applied to an already
collected file list. -/
def scan_core (daftar_path_file : List TraversedFile) (ukuran_minimum_bytes : Nat) :
    FolderStats :=
  { total_size := hitung_total_ukuran_file daftar_path_file
    total_files := daftar_path_file.length
    extension_count := hitung_ekstensi_file daftar_path_file
    filtered_files := filter_file_berdasarkan_ukuran daftar_path_file ukuran_minimum_bytes }

/- ===================== Filesystem model and traversal ===================== -/

mutual
/-- Filesystem node: a regular file carrying the outcome of its later
metadata lookup, or a directory of named children. -/
inductive FSNode where
  | file (meta : Option Metadata)
  | dir (entries : List DirEntry)

/-- Named child of a directory. -/
inductive DirEntry where
  | mk (name : String) (node : FSNode)
end

mutual
/-- Regular files reachable from a node, in depth-first order, the
documented semantics of the `walkdir` collaborator: a file root yields that
single file, a directory root yields the files below it. -/
def walkFiles (path : String) : FSNode → List TraversedFile
  | .file md => [⟨path, md⟩]
  | .dir entries => walkEntries path entries

/-- Traversal of a directory's children. -/
def walkEntries (path : String) : List DirEntry → List TraversedFile
  | [] => []
  | .mk name node :: rest => walkFiles (path ++ "/" ++ name) node ++ walkEntries path rest
end

/-- Embedding of `collect_semua_file_paths` (scan.rs lines 123-130) over the
filesystem model `fs` (a map from path to the node it denotes, `none` when
the path does not exist): `WalkDir::new` on a missing root yields a single
`Err` entry, which `filter_map(Result::ok)` drops. -/
def collect_semua_file_paths (fs : String → Option FSNode) (path_folder : String) :
    List TraversedFile :=
  match fs path_folder with
  | none => []
  | some node => walkFiles path_folder node

/-- Embedding of `scan_folder` (scan.rs lines 92-120). -/
def scan_folder (fs : String → Option FSNode) (path_folder : String)
    (ukuran_minimum_bytes : Nat) : Except String FolderStats :=
  .ok (scan_core (collect_semua_file_paths fs path_folder) ukuran_minimum_bytes)

/- ===================== Parallel aggregation schedules ===================== -/

/-- Total size under a rayon schedule that splits the file list into the
given partitions: per-partition sums combined by addition. -/
def parTotalSize (P : List (List TraversedFile)) : Nat :=
  (P.map hitung_total_ukuran_file).sum

/-- File count under a partitioned schedule: per-partition lengths summed. -/
def parTotalFiles (P : List (List TraversedFile)) : Nat :=
  (P.map List.length).sum

/-- Extension map of one partition, built with the fold step
`tambahkan_ekstensi_ke_map` from the empty map, as rayon's `fold` does. -/
def fold_ekstensi_partisi (part : List TraversedFile) : List (String × Nat) :=
  (part.map ekstrak_ekstensi_file).foldl tambahkan_ekstensi_ke_map []

/-- Merge of the per-partition maps with the reduce step
`gabungkan_map_ekstensi`, starting from the empty map, as rayon's `reduce`
does. -/
def reduce_ekstensi (maps : List (List (String × Nat))) : List (String × Nat) :=
  maps.foldl gabungkan_map_ekstensi []

/-- Extension histogram produced by the fold+reduce pipeline of
`hitung_ekstensi_file` on a given partitioning of the file list. -/
def parExtensionCount (P : List (List TraversedFile)) : List (String × Nat) :=
  konversi_dan_urutkan_map_ekstensi (reduce_ekstensi (P.map fold_ekstensi_partisi))

/- ===================== WorkDispatcher (src/ipc.rs) ===================== -/

/-- Captured output of a finished worker subprocess: exit-status success
flag, standard output and standard error (the `std::process::Output` fields
the dispatcher reads, with the byte buffers modelled as text since the code
reads them through `from_utf8_lossy`). -/
structure ProcOutput where
  success : Bool
  stdout : String
  stderr : String
deriving DecidableEq

/-- Outcome of trying to launch the worker subprocess: either it was
launched and ran to completion, or the launch itself failed with an OS
error message. -/
inductive SpawnOutcome where
  | launched (o : ProcOutput)
  | failed (msg : String)
deriving DecidableEq

/-- Model of Rust `str::trim` at the string level, used on captured
standard error. -/
def rustTrim (s : String) : String :=
  ⟨trimL s.data⟩

/-- Embedding of `spawn_worker_process` (ipc.rs lines 24-35): the launch
result, with an OS launch failure wrapped in the dispatcher's message. -/
def spawn_worker_process (outcome : SpawnOutcome) : Except String ProcOutput :=
  match outcome with
  | .launched o => .ok o
  | .failed msg => .error ("Gagal menjalankan worker process: " ++ msg)

/-- Embedding of `validate_worker_success` (ipc.rs lines 38-47). -/
def validate_worker_success (output : ProcOutput) : Except String Unit :=
  if output.success then .ok ()
  else .error ("Worker process gagal: " ++ rustTrim output.stderr)

/-- Embedding of `parse_worker_output` (ipc.rs lines 50-55).  The
`serde_json::from_str::<FolderStats>` collaborator is passed in as the
`decode` parameter; the code wraps its error in the decode message. -/
def parse_worker_output (decode : String → Except String FolderStats) (stdout : String) :
    Except String FolderStats :=
  match decode stdout with
  | .ok stats => .ok stats
  | .error e => .error ("Output JSON tidak valid dari worker: " ++ e)

/-- Embedding of `run_worker_scan` (ipc.rs lines 8-21): launch, validate
the exit status, then decode standard output. -/
def run_worker_scan (decode : String → Except String FolderStats) (outcome : SpawnOutcome) :
    Except String FolderStats :=
  match spawn_worker_process outcome with
  | .error e => .error e
  | .ok output =>
    match validate_worker_success output with
    | .error e => .error e
    | .ok _ => parse_worker_output decode output.stdout

/- ===================== Worker-mode process contract ===================== -/

/-- Decimal rendering of a natural number. -/
def natToStr (n : Nat) : String :=
  Nat.repr n

/-- JSON escaping of one character, following serde_json: quote, backslash
and the named control escapes; any other character is emitted as itself
(other control characters do not occur in the paths this development
evaluates). -/
def escChar (c : Char) : List Char :=
  if c = '"' then ['\\', '"']
  else if c = '\\' then ['\\', '\\']
  else if c = '\n' then ['\\', 'n']
  else if c = '\r' then ['\\', 'r']
  else if c = '\t' then ['\\', 't']
  else [c]

/-- JSON string literal for `s`. -/
def jsonStr (s : String) : String :=
  "\"" ++ String.mk (s.data.flatMap escChar) ++ "\""

/-- JSON rendering of one extension-count pair, serde's form for a Rust
2-tuple. -/
def jsonPair (p : String × Nat) : String :=
  "[" ++ jsonStr p.1 ++ "," ++ natToStr p.2 ++ "]"

/-- JSON rendering of one `FileEntry` record. -/
def jsonEntry (e : FileEntry) : String :=
  "\x7b\"path\":" ++ jsonStr e.path ++ ",\"size\":" ++ natToStr e.size ++ "\x7d"

/-- Comma-join of rendered elements. -/
def joinComma : List String → String
  | [] => ""
  | [x] => x
  | x :: xs => x ++ "," ++ joinComma xs

/-- Model of `serde_json::to_string` on a `FolderStats` with the field
order of the derived `Serialize` implementation (scan.rs lines 16-21). -/
def serializeFolderStats (s : FolderStats) : String :=
  "\x7b\"total_size\":" ++ natToStr s.total_size ++
  ",\"total_files\":" ++ natToStr s.total_files ++
  ",\"extension_count\":[" ++ joinComma (s.extension_count.map jsonPair) ++
  "],\"filtered_files\":[" ++ joinComma (s.filtered_files.map jsonEntry) ++ "]\x7d"

/-- Model of Rust `u64::from_str` as used on the worker's threshold
argument: an optional leading plus sign, then a non-empty digit run whose
value fits u64; anything else fails. -/
def parseU64 (s : String) : Option Nat :=
  let cs := match s.data with
    | '+' :: rest => rest
    | rest => rest
  if cs ≠ [] ∧ cs.all Char.isDigit then
    if digitsToNat cs < 2 ^ 64 then some (digitsToNat cs) else none
  else none

/-- Observable behaviour of one process run: exit status and the lines
written to standard output and standard error. -/
structure ProcResult where
  exitCode : Nat
  stdoutLines : List String
  stderrLines : List String
deriving DecidableEq

/-- Behaviour of the program entry point: either the GUI application is
started, or (in worker mode) the process performs one scan and exits. -/
inductive MainBehavior where
  | gui
  | proc (r : ProcResult)
deriving DecidableEq

/-- Modelled from the spec: the worker-mode entry point of `main` is not
present in the provided sources (src/main.rs lines 156-160 only build and
run the GUI application), so it is modelled from the spec's process
invocation contract: with arguments `--worker <root_path> <threshold>` the
process parses the threshold as an unsigned integer treating a parse
failure as 0, runs the scan on the root, prints the serialized FolderStats
as the sole line of standard output and exits with status 0; fewer than 4
argument tokens is a usage error with exit status 1; a scan failure would
exit with status 3 (unreachable, since `scan_folder` always returns a
value, so the serialization-failure status 2 branch of the spec is likewise
not represented).  Without the worker flag the GUI starts. -/
def mainEntry (fs : String → Option FSNode) (args : List String) : MainBehavior :=
  match args with
  | _prog :: "--worker" :: rest =>
    match rest with
    | root :: thr :: _ =>
      let threshold := (parseU64 thr).getD 0
      match scan_folder fs root threshold with
      | .ok stats => .proc ⟨0, [serializeFolderStats stats], []⟩
      | .error e => .proc ⟨3, [], [e]⟩
    | _ => .proc ⟨1, [], ["Usage: --worker <root_path> <threshold>"]⟩
  | _ => .gui

/- ===================== Histogram map machinery ===================== -/

/-- Value stored for key `k` in the association-list map (0 when absent). -/
def mval : List (String × Nat) → String → Nat
  | [], _ => 0
  | (k0, v) :: rest, k => if k0 = k then v else mval rest k

/-- Total weight the entry list contributes to key `k` (the sum of the
values of all pairs carrying that key). -/
def entriesVal : List (String × Nat) → String → Nat
  | [], _ => 0
  | (k0, v) :: rest, k => (if k0 = k then v else 0) + entriesVal rest k

/-- Number of occurrences of `k` in a key list. -/
def keyCount (k : String) (exts : List String) : Nat :=
  exts.countP fun e => decide (e = k)

/-- Well-formedness of an association-list histogram relative to the count
function it represents: keys are unique, the stored value of every key is
`f` of it, and exactly the keys of positive count are present. -/
structure MapInv (m : List (String × Nat)) (f : String → Nat) : Prop where
  nodup : (m.map Prod.fst).Nodup
  val_eq : ∀ k, mval m k = f k
  mem_keys : ∀ k, k ∈ m.map Prod.fst ↔ 0 < f k

lemma mval_bumpKey (m : List (String × Nat)) (k : String) (d : Nat) (k' : String) :
    mval (bumpKey m k d) k' = mval m k' + (if k = k' then d else 0) := by
  induction m with
  | nil => by_cases h : k = k' <;> simp [bumpKey, mval, h]
  | cons p rest ih =>
    obtain ⟨k0, v⟩ := p
    by_cases h0 : k0 = k
    · subst h0
      by_cases h' : k0 = k' <;> simp [bumpKey, mval, h']
    · by_cases h' : k0 = k'
      · subst h'
        have hkk : ¬ k = k0 := fun h => h0 h.symm
        simp [bumpKey, mval, h0, hkk]
      · simp [bumpKey, mval, h0, h', ih]

lemma mem_keys_bumpKey (m : List (String × Nat)) (k : String) (d : Nat) (k' : String) :
    k' ∈ (bumpKey m k d).map Prod.fst ↔ (k' ∈ m.map Prod.fst ∨ k' = k) := by
  induction m with
  | nil => simp [bumpKey, eq_comm]
  | cons p rest ih =>
    obtain ⟨k0, v⟩ := p
    by_cases h0 : k0 = k
    · subst h0
      rw [show bumpKey ((k0, v) :: rest) k0 d = (k0, v + d) :: rest by simp [bumpKey]]
      simp
      tauto
    · simp [bumpKey, h0, ih, or_assoc]

lemma nodup_bumpKey (m : List (String × Nat)) (k : String) (d : Nat)
    (h : (m.map Prod.fst).Nodup) : ((bumpKey m k d).map Prod.fst).Nodup := by
  induction m with
  | nil => simp [bumpKey]
  | cons p rest ih =>
    obtain ⟨k0, v⟩ := p
    rw [List.map_cons, List.nodup_cons] at h
    by_cases h0 : k0 = k
    · subst h0
      simpa [bumpKey, List.nodup_cons] using h
    · rw [show bumpKey ((k0, v) :: rest) k d = (k0, v) :: bumpKey rest k d by simp [bumpKey, h0]]
      rw [List.map_cons, List.nodup_cons]
      refine ⟨?_, ih h.2⟩
      rw [mem_keys_bumpKey]
      rintro (hc | hc)
      · exact h.1 hc
      · exact h0 hc

lemma mval_of_mem {m : List (String × Nat)} {k : String} {v : Nat}
    (h : (m.map Prod.fst).Nodup) (hm : (k, v) ∈ m) : mval m k = v := by
  induction m with
  | nil => simp at hm
  | cons p rest ih =>
    obtain ⟨k0, v0⟩ := p
    rw [List.map_cons, List.nodup_cons] at h
    rcases List.mem_cons.1 hm with heq | hmem
    · injection heq with h1 h2
      subst h1
      subst h2
      simp [mval]
    · have hk0 : k0 ≠ k := by
        intro he
        apply h.1
        rw [he]
        exact List.mem_map.2 ⟨(k, v), hmem, rfl⟩
      simp [mval, hk0]
      exact ih h.2 hmem

lemma entriesVal_of_not_mem {m : List (String × Nat)} {k : String}
    (h : k ∉ m.map Prod.fst) : entriesVal m k = 0 := by
  induction m with
  | nil => rfl
  | cons p rest ih =>
    obtain ⟨k0, v⟩ := p
    rw [List.map_cons, List.mem_cons] at h
    push_neg at h
    have h0 : k0 ≠ k := fun he => h.1 he.symm
    simp [entriesVal, h0, ih h.2]

lemma entriesVal_eq_mval {m : List (String × Nat)}
    (h : (m.map Prod.fst).Nodup) (k : String) : entriesVal m k = mval m k := by
  induction m with
  | nil => rfl
  | cons p rest ih =>
    obtain ⟨k0, v⟩ := p
    rw [List.map_cons, List.nodup_cons] at h
    by_cases h0 : k0 = k
    · subst h0
      simp [entriesVal, mval, entriesVal_of_not_mem h.1]
    · simp [entriesVal, mval, h0, ih h.2]

lemma MapInv.nil : MapInv [] (fun _ => 0) := by
  refine ⟨by simp, fun k => rfl, by simp⟩

lemma MapInv.congr {m : List (String × Nat)} {f g : String → Nat}
    (h : MapInv m f) (hfg : ∀ k, f k = g k) : MapInv m g := by
  refine ⟨h.nodup, fun k => (h.val_eq k).trans (hfg k), fun k => (h.mem_keys k).trans ?_⟩
  rw [hfg k]

lemma MapInv.bump {m : List (String × Nat)} {f : String → Nat}
    (h : MapInv m f) (k : String) (d : Nat) (hd : 0 < d) :
    MapInv (bumpKey m k d) (fun k' => f k' + if k = k' then d else 0) := by
  refine ⟨nodup_bumpKey m k d h.nodup, ?_, ?_⟩
  · intro k'
    rw [mval_bumpKey, h.val_eq]
  · intro k'
    rw [mem_keys_bumpKey]
    constructor
    · rintro (hk | rfl)
      · have := (h.mem_keys k').1 hk
        omega
      · simp
        omega
    · intro hpos
      by_cases hk : k = k'
      · exact Or.inr hk.symm
      · refine Or.inl ((h.mem_keys k').2 ?_)
        simpa [hk] using hpos

lemma MapInv.mem_iff {m : List (String × Nat)} {f : String → Nat}
    (h : MapInv m f) (k : String) (v : Nat) :
    (k, v) ∈ m ↔ (f k = v ∧ 0 < v) := by
  constructor
  · intro hm
    have hval := mval_of_mem h.nodup hm
    rw [h.val_eq] at hval
    have hk : k ∈ m.map Prod.fst := List.mem_map_of_mem Prod.fst hm
    have hpos := (h.mem_keys k).1 hk
    exact ⟨hval, by omega⟩
  · rintro ⟨hfv, hv⟩
    have hk : k ∈ m.map Prod.fst := (h.mem_keys k).2 (by omega)
    obtain ⟨⟨k1, v1⟩, hp, hfst⟩ := List.mem_map.1 hk
    simp at hfst
    subst hfst
    have hval := mval_of_mem h.nodup hp
    rw [h.val_eq, hfv] at hval
    subst hval
    exact hp

lemma MapInv.fold_exts (exts : List String) :
    ∀ (m : List (String × Nat)) (f : String → Nat), MapInv m f →
    MapInv (exts.foldl tambahkan_ekstensi_ke_map m) (fun k => f k + keyCount k exts) := by
  induction exts with
  | nil =>
    intro m f h
    exact h.congr (by intro k; simp [keyCount])
  | cons e rest ih =>
    intro m f h
    have h2 := ih _ _ (h.bump e 1 (by omega))
    refine h2.congr ?_
    intro k
    by_cases he : e = k <;> simp [keyCount, List.countP_cons, he] <;> omega

lemma MapInv.foldl_bump (es : List (String × Nat)) :
    ∀ (m : List (String × Nat)) (f : String → Nat), MapInv m f →
    (∀ p ∈ es, 0 < p.2) →
    MapInv (es.foldl (fun acc p => bumpKey acc p.1 p.2) m)
      (fun k => f k + entriesVal es k) := by
  induction es with
  | nil =>
    intro m f h _
    exact h.congr (by intro k; simp [entriesVal])
  | cons p rest ih =>
    intro m f h hpos
    obtain ⟨k0, v⟩ := p
    have h1 := h.bump k0 v (hpos (k0, v) (by simp))
    have h2 := ih _ _ h1 (fun q hq => hpos q (by simp [hq]))
    refine h2.congr ?_
    intro k
    by_cases hk : k0 = k <;> simp [entriesVal, hk] <;> omega

lemma MapInv.gabungkan_inv {m1 m2 : List (String × Nat)} {f1 f2 : String → Nat}
    (h1 : MapInv m1 f1) (h2 : MapInv m2 f2) :
    MapInv (gabungkan_map_ekstensi m1 m2) (fun k => f1 k + f2 k) := by
  have hpos : ∀ p ∈ m2, 0 < p.2 := by
    rintro ⟨k, v⟩ hp
    exact ((h2.mem_iff k v).1 hp).2
  have h3 := MapInv.foldl_bump m2 m1 f1 h1 hpos
  refine h3.congr ?_
  intro k
  rw [entriesVal_eq_mval h2.nodup, h2.val_eq]

lemma histInv (daftar : List TraversedFile) :
    MapInv ((daftar.map ekstrak_ekstensi_file).foldl tambahkan_ekstensi_ke_map [])
      (fun k => keyCount k (daftar.map ekstrak_ekstensi_file)) :=
  (MapInv.fold_exts _ _ _ MapInv.nil).congr (by intro k; simp)

/- ===================== Value-sum lemmas ===================== -/

lemma vsum_bumpKey (m : List (String × Nat)) (k : String) (d : Nat) :
    ((bumpKey m k d).map Prod.snd).sum = (m.map Prod.snd).sum + d := by
  induction m with
  | nil => simp [bumpKey]
  | cons p rest ih =>
    obtain ⟨k0, v⟩ := p
    by_cases h0 : k0 = k <;> simp [bumpKey, h0, ih] <;> omega

lemma vsum_fold_exts (exts : List String) :
    ∀ m : List (String × Nat),
    ((exts.foldl tambahkan_ekstensi_ke_map m).map Prod.snd).sum
      = (m.map Prod.snd).sum + exts.length := by
  induction exts with
  | nil => intro m; simp
  | cons e rest ih =>
    intro m
    rw [List.foldl_cons, ih, show tambahkan_ekstensi_ke_map m e = bumpKey m e 1 from rfl,
      vsum_bumpKey]
    simp
    omega

/- ===================== Sorting lemmas ===================== -/

lemma insertDesc_perm (x : String × Nat) (l : List (String × Nat)) :
    (insertDesc x l).Perm (x :: l) := by
  induction l with
  | nil => exact List.Perm.refl _
  | cons y ys ih =>
    by_cases h : y.2 < x.2
    · simp [insertDesc, h]
    · rw [show insertDesc x (y :: ys) = y :: insertDesc x ys by simp [insertDesc, h]]
      exact (ih.cons y).trans (List.Perm.swap x y ys)

lemma sortDesc_perm (l : List (String × Nat)) : (sortDesc l).Perm l := by
  induction l with
  | nil => exact List.Perm.refl _
  | cons x xs ih =>
    rw [show sortDesc (x :: xs) = insertDesc x (sortDesc xs) from rfl]
    exact (insertDesc_perm x (sortDesc xs)).trans (ih.cons x)

lemma pairwise_insertDesc (x : String × Nat) (l : List (String × Nat))
    (h : l.Pairwise fun a b => b.2 ≤ a.2) :
    (insertDesc x l).Pairwise fun a b => b.2 ≤ a.2 := by
  induction l with
  | nil => simp [insertDesc]
  | cons y ys ih =>
    obtain ⟨hy, hys⟩ := List.pairwise_cons.1 h
    by_cases hlt : y.2 < x.2
    · rw [show insertDesc x (y :: ys) = x :: y :: ys by simp [insertDesc, hlt]]
      rw [List.pairwise_cons]
      refine ⟨?_, h⟩
      intro b hb
      rcases List.mem_cons.1 hb with rfl | hmem
      · omega
      · have := hy b hmem
        omega
    · rw [show insertDesc x (y :: ys) = y :: insertDesc x ys by simp [insertDesc, hlt]]
      rw [List.pairwise_cons]
      refine ⟨?_, ih hys⟩
      intro b hb
      have hb' : b ∈ x :: ys := (insertDesc_perm x ys).mem_iff.1 hb
      rcases List.mem_cons.1 hb' with rfl | hmem
      · omega
      · exact hy b hmem

lemma sortDesc_pairwise (l : List (String × Nat)) :
    (sortDesc l).Pairwise fun a b => b.2 ≤ a.2 := by
  induction l with
  | nil => simp [sortDesc]
  | cons x xs ih => exact pairwise_insertDesc x (sortDesc xs) ih

/- ===================== Bridge lemmas ===================== -/

lemma hitung_total_eq_filterMap (files : List TraversedFile) :
    hitung_total_ukuran_file files
      = ((files.filterMap TraversedFile.meta).map Metadata.len).sum := by
  induction files with
  | nil => rfl
  | cons f rest ih =>
    unfold hitung_total_ukuran_file at ih ⊢
    cases hm : f.meta with
    | none => simp [List.filterMap_cons, hm, ambil_ukuran_file, ih]
    | some md => simp [List.filterMap_cons, hm, ambil_ukuran_file, ih]

lemma mem_filter_file_iff (files : List TraversedFile) (t : Nat) (e : FileEntry) :
    e ∈ filter_file_berdasarkan_ukuran files t ↔
      ∃ f ∈ files, f.meta = some ⟨e.size⟩ ∧ e.path = f.path ∧ t ≤ e.size := by
  constructor
  · intro he
    unfold filter_file_berdasarkan_ukuran at he
    obtain ⟨p, hp, hpe⟩ := List.mem_map.1 he
    obtain ⟨hp1, hp2⟩ := List.mem_filter.1 hp
    obtain ⟨f, hf, hamb⟩ := List.mem_filterMap.1 hp1
    unfold ambil_path_dan_ukuran at hamb
    obtain ⟨md, hmd, hpair⟩ := Option.map_eq_some'.1 hamb
    subst hpair
    subst hpe
    refine ⟨f, hf, ?_, rfl, ?_⟩
    · rw [hmd]
      cases md
      rfl
    · simpa using hp2
  · rintro ⟨f, hf, hmd, hpath, hle⟩
    unfold filter_file_berdasarkan_ukuran
    refine List.mem_map.2 ⟨(f.path, e.size),
      List.mem_filter.2 ⟨List.mem_filterMap.2 ⟨f, hf, ?_⟩, ?_⟩, ?_⟩
    · unfold ambil_path_dan_ukuran
      rw [hmd]
      rfl
    · simpa using hle
    · obtain ⟨ep, es⟩ := e
      simp only at hpath
      subst hpath
      rfl

lemma parTotalSize_eq_flatten (P : List (List TraversedFile)) :
    parTotalSize P = hitung_total_ukuran_file P.flatten := by
  induction P with
  | nil => rfl
  | cons part rest ih =>
    simp only [parTotalSize, List.map_cons, List.sum_cons, List.flatten_cons,
      hitung_total_ukuran_file, List.map_append, List.sum_append]
    simp only [parTotalSize, hitung_total_ukuran_file] at ih
    omega

lemma parTotalFiles_eq_flatten (P : List (List TraversedFile)) :
    parTotalFiles P = P.flatten.length := by
  induction P with
  | nil => rfl
  | cons part rest ih =>
    simp only [parTotalFiles, List.map_cons, List.sum_cons, List.flatten_cons,
      List.length_append]
    simp only [parTotalFiles] at ih
    omega

lemma reduce_ekstensi_inv (P : List (List TraversedFile)) :
    MapInv (reduce_ekstensi (P.map fold_ekstensi_partisi))
      (fun k => keyCount k (P.flatten.map ekstrak_ekstensi_file)) := by
  suffices h : ∀ (Ps : List (List TraversedFile)) (acc : List (String × Nat)) (g : String → Nat),
      MapInv acc g →
      MapInv ((Ps.map fold_ekstensi_partisi).foldl gabungkan_map_ekstensi acc)
        (fun k => g k + keyCount k (Ps.flatten.map ekstrak_ekstensi_file)) by
    exact (h P [] (fun _ => 0) MapInv.nil).congr (by intro k; simp)
  intro Ps
  induction Ps with
  | nil =>
    intro acc g hg
    exact hg.congr (by intro k; simp [keyCount])
  | cons part rest ih =>
    intro acc g hg
    have hpart : MapInv (fold_ekstensi_partisi part)
        (fun k => keyCount k (part.map ekstrak_ekstensi_file)) :=
      (MapInv.fold_exts (part.map ekstrak_ekstensi_file) [] _ MapInv.nil).congr
        (by intro k; simp)
    have h2 := ih _ _ (hg.gabungkan_inv hpart)
    refine h2.congr ?_
    intro k
    simp only [List.flatten_cons, List.map_append, keyCount, List.countP_append]
    omega

lemma mapinv_perm {m1 m2 : List (String × Nat)} {f : String → Nat}
    (h1 : MapInv m1 f) (h2 : MapInv m2 f) : m1.Perm m2 := by
  have hsub : ∀ {a b : List (String × Nat)}, MapInv a f → MapInv b f → a ⊆ b := by
    intro a b ha hb p hp
    obtain ⟨k, v⟩ := p
    exact (hb.mem_iff k v).2 ((ha.mem_iff k v).1 hp)
  have d1 : m1.Nodup := List.Nodup.of_map Prod.fst h1.nodup
  have d2 : m2.Nodup := List.Nodup.of_map Prod.fst h2.nodup
  exact (List.subperm_of_subset d1 (hsub h1 h2)).antisymm
    (List.subperm_of_subset d2 (hsub h2 h1))

lemma parse_human_eq_tokens (s : String) :
    parse_human_input_to_bytes s =
      match tokensOf s with
      | [a] => parse_angka_tanpa_unit a
      | [a, u] => parse_angka_dengan_unit a u
      | _ => none := by
  unfold parse_human_input_to_bytes tokensOf
  by_cases hE : (toUpperL (trimL s.data)).isEmpty
  · have hnil : toUpperL (trimL s.data) = [] := by
      cases h : toUpperL (trimL s.data) with
      | nil => rfl
      | cons c cs => rw [h] at hE; simp [List.isEmpty] at hE
    rw [hnil]
    rfl
  · simp only [hE, if_false, Bool.false_eq_true]

/- ===================== Claim theorems ===================== -/

/-- C1: for every invocation `exe --worker root threshold`, the worker-mode
entry point runs the scan on the root with the parsed threshold, prints the
serialized FolderStats as the sole line of standard output and exits with
status 0; a threshold that fails to parse as an unsigned integer is treated
as 0 rather than aborting. -/
theorem C1_worker_invocation (fs : String → Option FSNode) (prog root thr : String) :
    mainEntry fs [prog, "--worker", root, thr]
      = .proc ⟨0, [serializeFolderStats
          (scan_core (collect_semua_file_paths fs root) ((parseU64 thr).getD 0))], []⟩ ∧
    (parseU64 thr = none →
      mainEntry fs [prog, "--worker", root, thr]
        = .proc ⟨0, [serializeFolderStats
            (scan_core (collect_semua_file_paths fs root) 0)], []⟩) := by
  constructor
  · rfl
  · intro h
    simp [mainEntry, scan_folder, h]

/-- Witness for C1 at a concrete invocation whose threshold argument does
not parse. -/
theorem C1_worker_invocation_witness :
    mainEntry (fun _ => none) ["exe", "--worker", "/r", "xyz"]
      = .proc ⟨0, [serializeFolderStats
          (scan_core (collect_semua_file_paths (fun _ => none) "/r") 0)], []⟩ :=
  (C1_worker_invocation (fun _ => none) "exe" "/r" "xyz").2 rfl

/-- C2: for every subprocess outcome the dispatcher returns exactly one of
the four specified results — a launch-failure error, an error carrying the
trimmed standard error on non-success exit, a decode error on success with
undecodable standard output, and the decoded FolderStats otherwise; it
never returns a partial FolderStats. -/
theorem C2_dispatcher_outcomes (decode : String → Except String FolderStats)
    (outcome : SpawnOutcome) :
    (∀ e, outcome = .failed e →
      run_worker_scan decode outcome
        = .error ("Gagal menjalankan worker process: " ++ e)) ∧
    (∀ o, outcome = .launched o → o.success = false →
      run_worker_scan decode outcome
        = .error ("Worker process gagal: " ++ rustTrim o.stderr)) ∧
    (∀ o e, outcome = .launched o → o.success = true → decode o.stdout = .error e →
      run_worker_scan decode outcome
        = .error ("Output JSON tidak valid dari worker: " ++ e)) ∧
    (∀ o stats, outcome = .launched o → o.success = true → decode o.stdout = .ok stats →
      run_worker_scan decode outcome = .ok stats) ∧
    ((∃ e, run_worker_scan decode outcome = .error e) ∨
      (∃ o stats, outcome = .launched o ∧ decode o.stdout = .ok stats ∧
        run_worker_scan decode outcome = .ok stats)) := by
  refine ⟨?_, ?_, ?_, ?_, ?_⟩
  · rintro e rfl
    rfl
  · rintro o rfl hs
    simp [run_worker_scan, spawn_worker_process, validate_worker_success, hs]
  · rintro o e rfl hs hd
    simp [run_worker_scan, spawn_worker_process, validate_worker_success, hs,
      parse_worker_output, hd]
  · rintro o stats rfl hs hd
    simp [run_worker_scan, spawn_worker_process, validate_worker_success, hs,
      parse_worker_output, hd]
  · cases outcome with
    | failed e => exact Or.inl ⟨_, rfl⟩
    | launched o =>
      by_cases hs : o.success
      · cases hd : decode o.stdout with
        | ok stats =>
          exact Or.inr ⟨o, stats, rfl, hd, by
            simp [run_worker_scan, spawn_worker_process, validate_worker_success, hs,
              parse_worker_output, hd]⟩
        | error e =>
          refine Or.inl ⟨"Output JSON tidak valid dari worker: " ++ e, ?_⟩
          simp [run_worker_scan, spawn_worker_process, validate_worker_success, hs,
            parse_worker_output, hd]
      · refine Or.inl ⟨"Worker process gagal: " ++ rustTrim o.stderr, ?_⟩
        simp [run_worker_scan, spawn_worker_process, validate_worker_success, hs]

/-- Witness for C2: pointing the dispatcher at a non-launchable executable
surfaces the launch failure. -/
theorem C2_dispatcher_outcomes_witness :
    run_worker_scan (fun _ => .error "bad json") (.failed "No such file")
      = .error "Gagal menjalankan worker process: No such file" :=
  (C2_dispatcher_outcomes (fun _ => .error "bad json") (.failed "No such file")).1
    "No such file" rfl

/-- C3: an entry is in `filtered_files` iff it comes from a traversed file
whose metadata was readable and whose size meets the inclusive threshold;
hence a file of exactly threshold bytes is included, every listed entry has
size at least the threshold (so a file of threshold - 1 bytes yields no
entry), threshold 0 includes every readable-metadata file, and a threshold
exceeding every file size gives the empty list. -/
theorem C3_filtered_files_threshold (files : List TraversedFile) (t : Nat) :
    (∀ e : FileEntry, e ∈ filter_file_berdasarkan_ukuran files t ↔
      ∃ f ∈ files, f.meta = some ⟨e.size⟩ ∧ e.path = f.path ∧ t ≤ e.size) ∧
    (∀ f ∈ files, ∀ sz : Nat, f.meta = some ⟨sz⟩ → t ≤ sz →
      (⟨f.path, sz⟩ : FileEntry) ∈ filter_file_berdasarkan_ukuran files t) ∧
    (∀ e ∈ filter_file_berdasarkan_ukuran files t, t ≤ e.size) ∧
    (∀ f ∈ files, ∀ sz : Nat, f.meta = some ⟨sz⟩ →
      (⟨f.path, sz⟩ : FileEntry) ∈ filter_file_berdasarkan_ukuran files 0) ∧
    ((∀ f ∈ files, ∀ sz : Nat, f.meta = some ⟨sz⟩ → sz < t) →
      filter_file_berdasarkan_ukuran files t = []) := by
  refine ⟨mem_filter_file_iff files t, ?_, ?_, ?_, ?_⟩
  · intro f hf sz hmd hle
    exact (mem_filter_file_iff files t ⟨f.path, sz⟩).2 ⟨f, hf, hmd, rfl, hle⟩
  · intro e he
    obtain ⟨f, hf, hmd, hpath, hle⟩ := (mem_filter_file_iff files t e).1 he
    exact hle
  · intro f hf sz hmd
    exact (mem_filter_file_iff files 0 ⟨f.path, sz⟩).2 ⟨f, hf, hmd, rfl, Nat.zero_le _⟩
  · intro hall
    rw [List.eq_nil_iff_forall_not_mem]
    intro e he
    obtain ⟨f, hf, hmd, hpath, hle⟩ := (mem_filter_file_iff files t e).1 he
    have := hall f hf e.size hmd
    omega

/-- Witness for C3 on a concrete file set at the threshold boundary: the
file of exactly threshold size is listed, the smaller one is not. -/
theorem C3_filtered_files_threshold_witness :
    (⟨"/r/a.bin", 100⟩ : FileEntry)
      ∈ filter_file_berdasarkan_ukuran
          [⟨"/r/a.bin", some ⟨100⟩⟩, ⟨"/r/b.bin", some ⟨99⟩⟩] 100 ∧
    (∀ e ∈ filter_file_berdasarkan_ukuran
          [⟨"/r/a.bin", some ⟨100⟩⟩, ⟨"/r/b.bin", some ⟨99⟩⟩] 100, 100 ≤ e.size) := by
  have h := C3_filtered_files_threshold
    [⟨"/r/a.bin", some ⟨100⟩⟩, ⟨"/r/b.bin", some ⟨99⟩⟩] 100
  exact ⟨h.2.1 ⟨"/r/a.bin", some ⟨100⟩⟩ (by simp) 100 rfl (by omega), h.2.2.1⟩

/-- C4: in every scan result the entries of `extension_count` are unique by
extension key and the counts sum to `total_files`. -/
theorem C4_extension_count_unique_sum (files : List TraversedFile) (t : Nat) :
    (((scan_core files t).extension_count.map Prod.fst).Nodup) ∧
    ((scan_core files t).extension_count.map Prod.snd).sum
      = (scan_core files t).total_files := by
  have hperm := sortDesc_perm
    ((files.map ekstrak_ekstensi_file).foldl tambahkan_ekstensi_ke_map [])
  have hinv := histInv files
  constructor
  · have hp := hperm.map Prod.fst
    simp only [scan_core, hitung_ekstensi_file, konversi_dan_urutkan_map_ekstensi]
    exact hp.nodup_iff.2 hinv.nodup
  · have h1 := (hperm.map Prod.snd).sum_eq
    have h2 := vsum_fold_exts (files.map ekstrak_ekstensi_file) []
    simp only [scan_core, hitung_ekstensi_file, konversi_dan_urutkan_map_ekstensi]
    rw [h1, h2]
    simp

/-- C5: a traversed file whose metadata lookup failed still counts toward
`total_files`, contributes 0 to `total_size` and is excluded from
`filtered_files`; `total_size` is the sum of the readable metadata sizes,
which is the sum over all traversed files with 0 substituted on failure. -/
theorem C5_metadata_failure_accounting (files : List TraversedFile) (t : Nat) :
    (scan_core files t).total_files = files.length ∧
    (scan_core files t).total_size
      = ((files.filterMap TraversedFile.meta).map Metadata.len).sum ∧
    (∀ f ∈ files, f.meta = none → ambil_ukuran_file f = 0) ∧
    (∀ e ∈ (scan_core files t).filtered_files,
      ∃ f ∈ files, f.meta = some ⟨e.size⟩ ∧ e.path = f.path) := by
  refine ⟨rfl, hitung_total_eq_filterMap files, ?_, ?_⟩
  · intro f hf hmd
    simp [ambil_ukuran_file, hmd]
  · intro e he
    obtain ⟨f, hf, hmd, hpath, hle⟩ := (mem_filter_file_iff files t e).1 he
    exact ⟨f, hf, hmd, hpath⟩

/-- Witness for C5 on a concrete file set with one failed metadata lookup. -/
theorem C5_metadata_failure_accounting_witness :
    (scan_core [⟨"/r/a.txt", some ⟨7⟩⟩, ⟨"/r/gone", none⟩] 0).total_files = 2 ∧
    (scan_core [⟨"/r/a.txt", some ⟨7⟩⟩, ⟨"/r/gone", none⟩] 0).total_size = 7 ∧
    ambil_ukuran_file ⟨"/r/gone", none⟩ = 0 := by
  have h := C5_metadata_failure_accounting [⟨"/r/a.txt", some ⟨7⟩⟩, ⟨"/r/gone", none⟩] 0
  exact ⟨h.1, by rw [h.2.1]; rfl, h.2.2.1 ⟨"/r/gone", none⟩ (by simp) rfl⟩

/-- C6: for every two partitionings of the same file multiset, the
fold+reduce aggregation produces the same total size, the same file count
and the same multiset of extension-count entries — the combine step sums
counts for shared keys, so the aggregation is partition-independent. -/
theorem C6_partition_independent_aggregation (P Q : List (List TraversedFile))
    (h : P.flatten.Perm Q.flatten) :
    parTotalSize P = parTotalSize Q ∧
    parTotalFiles P = parTotalFiles Q ∧
    (parExtensionCount P).Perm (parExtensionCount Q) := by
  refine ⟨?_, ?_, ?_⟩
  · rw [parTotalSize_eq_flatten, parTotalSize_eq_flatten]
    unfold hitung_total_ukuran_file
    exact (h.map ambil_ukuran_file).sum_eq
  · rw [parTotalFiles_eq_flatten, parTotalFiles_eq_flatten]
    exact h.length_eq
  · have i1 := reduce_ekstensi_inv P
    have i2 := (reduce_ekstensi_inv Q).congr
      (fun k => ((h.map ekstrak_ekstensi_file).countP_eq _).symm)
    have hperm := mapinv_perm i1 i2
    unfold parExtensionCount konversi_dan_urutkan_map_ekstensi
    exact ((sortDesc_perm _).trans hperm).trans (sortDesc_perm _).symm

/-- Witness for C6 on two concrete partitionings of the same two files. -/
theorem C6_partition_independent_aggregation_witness :
    parTotalSize [[⟨"/r/a.txt", some ⟨3⟩⟩], [⟨"/r/b.txt", some ⟨5⟩⟩]]
      = parTotalSize [[⟨"/r/b.txt", some ⟨5⟩⟩, ⟨"/r/a.txt", some ⟨3⟩⟩]] ∧
    (parExtensionCount [[⟨"/r/a.txt", some ⟨3⟩⟩], [⟨"/r/b.txt", some ⟨5⟩⟩]]).Perm
      (parExtensionCount [[⟨"/r/b.txt", some ⟨5⟩⟩, ⟨"/r/a.txt", some ⟨3⟩⟩]]) := by
  have h := C6_partition_independent_aggregation
    [[⟨"/r/a.txt", some ⟨3⟩⟩], [⟨"/r/b.txt", some ⟨5⟩⟩]]
    [[⟨"/r/b.txt", some ⟨5⟩⟩, ⟨"/r/a.txt", some ⟨3⟩⟩]]
    (by decide)
  exact ⟨h.1, h.2.2⟩

/-- C7: the extension key of a traversed file is the lower-cased extension
of its file name, the sentinel "unknown" when the name has none (such as a
file named README), and the resulting `extension_count` sequence is sorted
descending by count. -/
theorem C7_extension_classification (files : List TraversedFile) (t : Nat) :
    (∀ (f : TraversedFile) (ext : List Char),
      rustExtension (baseName f.path.data) = some ext →
      ekstrak_ekstensi_file f = ⟨lowerL ext⟩) ∧
    (∀ f : TraversedFile, rustExtension (baseName f.path.data) = none →
      ekstrak_ekstensi_file f = "unknown") ∧
    ((scan_core files t).extension_count.Pairwise fun a b => b.2 ≤ a.2) := by
  refine ⟨?_, ?_, ?_⟩
  · intro f ext h
    unfold ekstrak_ekstensi_file
    rw [h]
  · intro f h
    unfold ekstrak_ekstensi_file
    rw [h]
  · simp only [scan_core, hitung_ekstensi_file, konversi_dan_urutkan_map_ekstensi]
    exact sortDesc_pairwise _

/-- Witness for C7: a README file is classified "unknown", a .TXT file is
classified under the lower-cased key. -/
theorem C7_extension_classification_witness :
    ekstrak_ekstensi_file ⟨"/r/README", some ⟨3⟩⟩ = "unknown" ∧
    ekstrak_ekstensi_file ⟨"/r/A.TXT", some ⟨3⟩⟩ = ⟨lowerL ['T', 'X', 'T']⟩ := by
  have h := C7_extension_classification [] 0
  exact ⟨h.2.1 ⟨"/r/README", some ⟨3⟩⟩ (by decide),
    h.1 ⟨"/r/A.TXT", some ⟨3⟩⟩ ['T', 'X', 'T'] (by decide)⟩

/-- C8: the free-text size parser takes a single numeric token as megabytes
(value times 2^20 truncated toward zero, so "150" gives 157286400), takes
exactly two tokens as value times the binary multiplier of the unit B / KB /
MB / GB ("1.5 GB" gives 1610612736), and rejects every other shape: the
empty string, more than two tokens, a non-numeric value, or an unrecognized
unit such as in "150 XB". -/
theorem C8_free_text_parsing :
    parse_human_input_to_bytes "150" = some 157286400 ∧
    parse_human_input_to_bytes "1.5 GB" = some 1610612736 ∧
    parse_human_input_to_bytes "" = none ∧
    parse_human_input_to_bytes "150 XB" = none ∧
    (∀ s : String, 2 < (tokensOf s).length → parse_human_input_to_bytes s = none) ∧
    (∀ (s : String) (a : List Char), tokensOf s = [a] →
      parse_human_input_to_bytes s
        = (parseRustFloat a).map fun v => f64CastToU64 (f64MulNat v BYTES_PER_MB)) ∧
    (∀ (s : String) (a u : List Char), tokensOf s = [a, u] →
      parse_human_input_to_bytes s
        = (parseRustFloat a).bind fun v => convert_dengan_unit v u) ∧
    (∀ (v : RustFloat) (u : List Char),
      u ≠ ['B'] → u ≠ ['K', 'B'] → u ≠ ['M', 'B'] → u ≠ ['G', 'B'] →
      convert_dengan_unit v u = none) := by
  refine ⟨by decide, by decide, by decide, by decide, ?_, ?_, ?_, ?_⟩
  · intro s hlen
    rw [parse_human_eq_tokens]
    rcases htok : tokensOf s with _ | ⟨a, _ | ⟨b, _ | ⟨c, rest⟩⟩⟩ <;> rw [htok] at hlen <;>
      simp at hlen ⊢
  · intro s a htok
    rw [parse_human_eq_tokens, htok]
    rfl
  · intro s a u htok
    rw [parse_human_eq_tokens, htok]
    rfl
  · intro v u h1 h2 h3 h4
    simp [convert_dengan_unit, h1, h2, h3, h4]

/-- Witness for C8: a three-token input and a concrete two-token input,
discharged through the general conjuncts. -/
theorem C8_free_text_parsing_witness :
    parse_human_input_to_bytes "1 2 3" = none ∧
    parse_human_input_to_bytes "2 KB" = some 2048 := by
  have h := C8_free_text_parsing
  refine ⟨h.2.2.2.2.1 "1 2 3" (by decide), ?_⟩
  rw [h.2.2.2.2.2.2.1 "2 KB" ['2'] ['K', 'B'] (by decide)]
  decide

/-- C9 (amended): the in-process scan never returns an error value; when
the root does not exist the result is the empty FolderStats (total_files 0,
total_size 0, empty lists); but a root that exists as a regular file yields
that single file rather than zero entries. -/
theorem C9_scan_never_errors (fs : String → Option FSNode) (root : String) (t : Nat) :
    (∃ stats, scan_folder fs root t = .ok stats) ∧
    (fs root = none → scan_folder fs root t = .ok ⟨0, 0, [], []⟩) ∧
    (∀ md, fs root = some (.file md) →
      scan_folder fs root t = .ok (scan_core [⟨root, md⟩] t)) := by
  refine ⟨⟨_, rfl⟩, ?_, ?_⟩
  · intro h
    unfold scan_folder collect_semua_file_paths
    rw [h]
    rfl
  · intro md h
    unfold scan_folder collect_semua_file_paths
    rw [h]
    rfl

/-- Witness for C9 at a concrete missing root. -/
theorem C9_scan_never_errors_witness :
    scan_folder (fun _ => none) "/missing" 7 = .ok ⟨0, 0, [], []⟩ :=
  (C9_scan_never_errors (fun _ => none) "/missing" 7).2.1 rfl

/-- Counterexample to C9 as stated: a root that exists but is a regular
file (not a directory) does not give total_files = 0 with empty lists — the
traversal yields that single file, so the scan reports it. -/
theorem C9_counterexample :
    (∀ entries, (fun _ : String => some (FSNode.file (some ⟨5⟩))) "f.txt"
      ≠ some (FSNode.dir entries)) ∧
    scan_folder (fun _ => some (FSNode.file (some ⟨5⟩))) "f.txt" 0
      = .ok ⟨5, 1, [("txt", 1)], [⟨"f.txt", 5⟩]⟩ ∧
    (1 : Nat) ≠ 0 := by
  refine ⟨?_, rfl, by decide⟩
  intro entries h
  simp at h

/-- C10: the float-to-unsigned conversion behind the size parser is total
and saturating: it always lands in the u64 range, a negative value or NaN
gives 0 (so "-5 MB" parses to Some 0), and a product beyond the u64 range
gives u64::MAX. -/
theorem C10_saturating_conversion :
    parse_human_input_to_bytes "-5 MB" = some 0 ∧
    parse_human_input_to_bytes "nan" = some 0 ∧
    parse_human_input_to_bytes "99999999999 GB" = some U64_MAX ∧
    (∀ (v : RustFloat) (m : Nat), f64CastToU64 (f64MulNat v m) ≤ U64_MAX) ∧
    (∀ (n : Int) (k m : Nat), n < 0 → f64CastToU64 (f64MulNat (.finite n k) m) = 0) ∧
    (∀ m : Nat, f64CastToU64 (f64MulNat .nan m) = 0) ∧
    (∀ (n : Int) (k m : Nat), 0 ≤ n → 2 ^ 64 ≤ n.toNat * m / 10 ^ k →
      f64CastToU64 (f64MulNat (.finite n k) m) = U64_MAX) := by
  refine ⟨by decide, by decide, by decide, ?_, ?_, ?_, ?_⟩
  · intro v m
    cases v with
    | finite n k =>
      simp only [f64MulNat, f64CastToU64]
      split
      · exact Nat.zero_le _
      · exact min_le_right _ _
    | nan => exact Nat.zero_le _
    | inf => exact le_refl _
    | neginf => exact Nat.zero_le _
  · intro n k m hn
    simp only [f64MulNat, f64CastToU64]
    rcases Nat.eq_zero_or_pos m with rfl | hm
    · norm_num
    · have hneg : n * (m : Int) < 0 :=
        mul_neg_of_neg_of_pos hn (by exact_mod_cast hm)
      simp [hneg]
  · intro m
    rfl
  · intro n k m h0 hge
    simp only [f64MulNat, f64CastToU64]
    have hnm : ¬ (n * (m : Int) < 0) := by
      push_neg
      exact mul_nonneg h0 (Int.natCast_nonneg m)
    rw [if_neg hnm]
    have htn : (n * (m : Int)).toNat = n.toNat * m := by
      obtain ⟨a, rfl⟩ := Int.eq_ofNat_of_zero_le h0
      rw [← Int.natCast_mul, Int.toNat_natCast, Int.toNat_natCast]
    rw [htn]
    have hmax : U64_MAX ≤ n.toNat * m / 10 ^ k := by
      unfold U64_MAX
      omega
    exact min_eq_right hmax

/-- Witness for C10: a concrete negative value collapses to 0, a concrete
huge product saturates at u64::MAX. -/
theorem C10_saturating_conversion_witness :
    f64CastToU64 (f64MulNat (.finite (-7) 0) 1024) = 0 ∧
    f64CastToU64 (f64MulNat (.finite 20000000000 0) BYTES_PER_GB) = U64_MAX := by
  have h := C10_saturating_conversion
  exact ⟨h.2.2.2.2.1 (-7) 0 1024 (by decide),
    h.2.2.2.2.2.2 20000000000 0 BYTES_PER_GB (by decide) (by decide)⟩
